import Mathlib

/-!
Verification development for `spsdk/apps/nxpkeygen.py` (the NXP key
generator tool).  The core of the tool — key-type resolution, public-path
derivation and the dual-artifact persistence workflow of `main` — is
embedded shallowly below.  Paths and tokens are modelled as `List Char`,
the file system as an explicit record threaded through the workflow, and
the external crypto collaborator as an opaque record of functions.
-/

namespace NxpKeyGen

abbrev Path := List Char

/-! ### Python string primitives used by the tool -/

/-- `str.lower()` restricted to the per-character case fold used here. -/
def pyLower (s : List Char) : List Char := s.map Char.toLower

/-- Python whitespace (ASCII) recognised by `str.strip()`. -/
def isPySpace (c : Char) : Bool :=
  c == ' ' || c == '\t' || c == '\n' || c == '\r' || c == '\x0b' || c == '\x0c'

/-- `str.strip()`: drop leading and trailing whitespace. -/
def pyStrip (s : List Char) : List Char :=
  (((s.dropWhile isPySpace).reverse.dropWhile isPySpace)).reverse

/-- Line 103: `key_type.lower().strip()`. -/
def normalizeToken (s : List Char) : List Char := pyStrip (pyLower s)

/-- Does the string start with the three characters `rsa`? -/
def rsaAtHead : List Char → Bool
  | c1 :: c2 :: c3 :: _ => c1 == 'r' && c2 == 's' && c3 == 'a'
  | _ => false

/-- Line 104: the Python test `"rsa" in key_param` (substring containment). -/
def hasRsa : List Char → Bool
  | [] => false
  | c :: rest => rsaAtHead (c :: rest) || hasRsa rest

/-- Line 113: `key_param.replace("rsa", "")`, replacing every
left-to-right non-overlapping occurrence of `rsa` by the empty string. -/
def stripRsa : List Char → List Char
  | 'r' :: 's' :: 'a' :: rest => stripRsa rest
  | c :: rest => c :: stripRsa rest
  | [] => []

/-- Line 113: `int(...)` on the digit strings arising here — succeeds on a
non-empty all-digit string with its base-10 value, fails otherwise. -/
def pyInt (s : List Char) : Option Nat :=
  if s.isEmpty || !(s.all Char.isDigit) then none
  else some (s.foldl (fun n c => n * 10 + (c.toNat - '0'.toNat)) 0)

/-! ### `os.path.splitext` (POSIX flavour)

`splitext` splits a path at the final dot of its last component, except
that a run of dots at the very start of the last component never starts
an extension.  We first split at the final `/`, then split the base name
at its final `.` subject to the leading-dot rule. -/

/-- Split a path after its last `/`: the first component is the directory
part (ending in `/`, or empty), the second the base name (no `/`). -/
def splitDir (p : List Char) : Path × Path :=
  ((p.reverse.dropWhile (· != '/')).reverse,
   (p.reverse.takeWhile (· != '/')).reverse)

/-- Split a base name at its last dot; no split when there is no dot or
when every character before the last dot is itself a dot. -/
def splitExtBase (b : List Char) : Path × Path :=
  match b.reverse.dropWhile (· != '.') with
  | [] => (b, [])
  | _ :: srev =>
    if srev.all (· == '.') then (b, [])
    else (srev.reverse, '.' :: (b.reverse.takeWhile (· != '.')).reverse)

/-- `os.path.splitext(p)`: `(root, ext)` with `root ++ ext = p`. -/
def splitext (p : Path) : Path × Path :=
  ((splitDir p).1 ++ (splitExtBase (splitDir p).2).1,
   (splitExtBase (splitDir p).2).2)

/-- Line 108: `os.path.splitext(path)[0] + ".pub"`. -/
def pubKeyPath (p : Path) : Path :=
  (splitext p).1 ++ ('.' :: ['p', 'u', 'b'])

/-- `os.path.dirname`-style directory part of a path (up to and
including the final separator). -/
def dirName (p : Path) : Path := (splitDir p).1

/-! ### Key-type catalog -/

/-- Lines 34-43: `get_list_of_supported_keys` — the three RSA tokens
followed by the keys of the collaborator's curve registry
(`ec._CURVE_TYPES`), which is passed in as a parameter. -/
def getListOfSupportedKeys (curves : List (List Char)) : List (List Char) :=
  ["rsa2048".toList, "rsa3072".toList, "rsa4096".toList] ++ curves

/-- Modelled from the spec: the curve-name registry exposed by the crypto
collaborator (`spsdk.crypto.ec`, not among the sources here).  The spec
names secp256r1, secp384r1 and secp521r1 as supported curves. -/
def specCurveNames : List (List Char) :=
  ["secp256r1".toList, "secp384r1".toList, "secp521r1".toList]

/-- Modelled from the spec: the boundary validation of the key-type
option (line 60, a case-insensitive choice over the advertised tokens):
a token is accepted iff it case-insensitively matches an advertised one. -/
def tokenAccepted (curves : List (List Char)) (t : List Char) : Bool :=
  (getListOfSupportedKeys curves).any (fun k => pyLower t == pyLower k)

/-- Resolved key descriptor: RSA with a modulus size, or a named curve. -/
inductive KeySpec : Type
  | rsa (bits : Nat)
  | ecc (curve : List Char)
deriving DecidableEq

/-! ### Provisioner state, errors and events -/

/-- Errors surfaced by the workflow: a missing destination directory, a
collision with an existing file, or a failed `int()` conversion. -/
inductive ProvisionError : Type
  | invalidDestination
  | fileExists (p : Path)
  | valueError
deriving DecidableEq

instance {ε α : Type} [DecidableEq ε] [DecidableEq α] :
    DecidableEq (Except ε α) := fun x y =>
  match x, y with
  | .ok a, .ok b =>
    if h : a = b then .isTrue (by rw [h])
    else .isFalse (by intro hc; cases hc; exact h rfl)
  | .error a, .error b =>
    if h : a = b then .isTrue (by rw [h])
    else .isFalse (by intro hc; cases hc; exact h rfl)
  | .ok _, .error _ => .isFalse (by intro hc; cases hc)
  | .error _, .ok _ => .isFalse (by intro hc; cases hc)

/-- Observable steps of one invocation, in execution order. -/
inductive Event : Type
  | checkDir (p : Path)
  | checkFile (p : Path)
  | generate (spec : KeySpec)
  | writePriv (p : Path) (password : Option (List Char))
  | writePub (p : Path)
deriving DecidableEq

def Event.isWrite : Event → Bool
  | .writePriv _ _ => true
  | .writePub _ => true
  | _ => false

def Event.isGen : Event → Bool
  | .generate _ => true
  | _ => false

/-- The file system visible to one invocation: the set of directories and
the files with their (opaque, numbered) contents. -/
structure FS : Type where
  dirs : List Path
  files : List (Path × Nat)
deriving DecidableEq

def FS.isFile (fs : FS) (p : Path) : Bool := fs.files.any (fun q => q.1 == p)

def FS.write (fs : FS) (p : Path) (c : Nat) : FS := ⟨fs.dirs, (p, c) :: fs.files⟩

def FS.content (fs : FS) (p : Path) : Option Nat :=
  (fs.files.find? (fun q => q.1 == p)).map (fun q => q.2)

/-- Well-formed file system: every file lives in the root or in an
existing directory. -/
def FS.wf (fs : FS) : Bool :=
  fs.files.all (fun q => dirName q.1 == [] || fs.dirs.contains (dirName q.1))

/-- The external crypto collaborator (`spsdk.crypto`): key generation,
public-key derivation and serialization, all opaque to the core.  The
private-key serializers take the optional password; the public-key
serializers take none. -/
structure Collab : Type where
  genRsaPriv : Nat → Nat
  genEccPriv : List Char → Nat
  rsaPubOf : Nat → Nat
  eccPubOf : Nat → Nat
  serRsaPriv : Nat → Option (List Char) → Nat
  serRsaPub : Nat → Nat
  serEccPriv : Nat → Option (List Char) → Nat
  serEccPub : Nat → Nat

/-- A concrete collaborator instance, used to run the workflow on
concrete inputs. -/
def trivialCollab : Collab :=
  ⟨fun _ => 0, fun _ => 0, fun k => k, fun k => k,
   fun k _ => k, fun k => k, fun k _ => k, fun k => k⟩

/-- Modelled from the spec: `check_destination_dir` from
`spsdk.apps.utils` (not among the sources): the parent directory of the
path must exist — or is created when the force/create policy allows —
otherwise the run fails with `InvalidDestination`. -/
def checkDestinationDir (fs : FS) (p : Path) (force : Bool) :
    Except ProvisionError FS :=
  let d := dirName p
  if d.isEmpty then .ok fs
  else if fs.dirs.contains d then .ok fs
  else if force then .ok ⟨d :: fs.dirs, fs.files⟩
  else .error .invalidDestination

/-- Modelled from the spec: `check_file_exists` from `spsdk.apps.utils`
(not among the sources): with `force` false an existing file is a
`FileExists` failure; with `force` true it may be overwritten. -/
def checkFileExists (fs : FS) (p : Path) (force : Bool) :
    Except ProvisionError Unit :=
  if !force && fs.isFile p then .error (.fileExists p) else .ok ()

/-- Lines 117 and 125: `password if password else None` — Python
truthiness coalesces both an absent and an empty password to `None`. -/
def effectivePassword : Option (List Char) → Option (List Char)
  | none => none
  | some s => if s.isEmpty then none else some s

/-- Lines 101-127: the body of `main`, as a pure function from the
collaborator, the file system and the CLI inputs to the result, the
final file system and the trace of observable events, in the exact
statement order of the source. -/
def mainRun (collab : Collab) (fs : FS) (keyType : List Char) (path : Path)
    (password : Option (List Char)) (force : Bool) :
    Except ProvisionError Nat × FS × List Event :=
  let keyParam := normalizeToken keyType
  let isRsa := hasRsa keyParam
  match checkDestinationDir fs path force with
  | .error e => (.error e, fs, [.checkDir path])
  | .ok fs1 =>
    match checkFileExists fs1 path force with
    | .error e => (.error e, fs1, [.checkDir path, .checkFile path])
    | .ok _ =>
      let pubPath := pubKeyPath path
      match checkFileExists fs1 pubPath force with
      | .error e =>
        (.error e, fs1, [.checkDir path, .checkFile path, .checkFile pubPath])
      | .ok _ =>
        if isRsa then
          match pyInt (stripRsa keyParam) with
          | none =>
            (.error .valueError, fs1,
             [.checkDir path, .checkFile path, .checkFile pubPath])
          | some bits =>
            let priv := collab.genRsaPriv bits
            let pub := collab.rsaPubOf priv
            let fs2 := fs1.write path (collab.serRsaPriv priv (effectivePassword password))
            let fs3 := fs2.write pubPath (collab.serRsaPub pub)
            (.ok 0, fs3,
             [.checkDir path, .checkFile path, .checkFile pubPath,
              .generate (.rsa bits),
              .writePriv path (effectivePassword password), .writePub pubPath])
        else
          let priv := collab.genEccPriv keyParam
          let pub := collab.eccPubOf priv
          let fs2 := fs1.write path (collab.serEccPriv priv (effectivePassword password))
          let fs3 := fs2.write pubPath (collab.serEccPub pub)
          (.ok 0, fs3,
           [.checkDir path, .checkFile path, .checkFile pubPath,
            .generate (.ecc keyParam),
            .writePriv path (effectivePassword password), .writePub pubPath])

/-! ### List helpers -/

theorem takeWhileAll {α : Type} (p : α → Bool) (l1 l2 : List α)
    (h : ∀ x ∈ l1, p x = true) :
    (l1 ++ l2).takeWhile p = l1 ++ l2.takeWhile p := by
  induction l1 with
  | nil => simp
  | cons a t ih =>
    simp [List.takeWhile_cons, h a (by simp),
      ih (fun x hx => h x (by simp [hx]))]

theorem dropWhileAll {α : Type} (p : α → Bool) (l1 l2 : List α)
    (h : ∀ x ∈ l1, p x = true) :
    (l1 ++ l2).dropWhile p = l2.dropWhile p := by
  induction l1 with
  | nil => simp
  | cons a t ih =>
    simp [List.dropWhile_cons, h a (by simp),
      ih (fun x hx => h x (by simp [hx]))]

theorem dropWhileHead {α : Type} (p : α → Bool) (l : List α) (c : α)
    (rest : List α) (h : l.dropWhile p = c :: rest) : p c = false := by
  induction l with
  | nil => simp at h
  | cons a t ih =>
    rw [List.dropWhile_cons] at h
    split at h
    · exact ih h
    · cases h; simpa using (by assumption : ¬ (p c = true))

/-! ### Structure of `splitDir` -/

theorem splitDir_join (p : Path) : (splitDir p).1 ++ (splitDir p).2 = p := by
  simp [splitDir, ← List.reverse_append, List.takeWhile_append_dropWhile]

theorem splitDir_snd_no_slash (p : Path) :
    ∀ c ∈ (splitDir p).2, c ≠ '/' := by
  intro c hc
  simp only [splitDir, List.mem_reverse] at hc
  have := List.mem_takeWhile_imp hc
  simpa using this

theorem splitDir_fst_cases (p : Path) :
    (splitDir p).1 = [] ∨ ∃ d, (splitDir p).1 = d ++ ['/'] := by
  rcases h : p.reverse.dropWhile (· != '/') with _ | ⟨a, rest⟩
  · left; simp [splitDir, h]
  · right
    have ha : (a != '/') = false := dropWhileHead (· != '/') p.reverse a rest h
    have ha2 : a = '/' := by simpa using ha
    exact ⟨rest.reverse, by simp [splitDir, h, ha2]⟩

theorem splitDir_append (d b : Path)
    (hd : d = [] ∨ ∃ e, d = e ++ ['/']) (hb : ∀ c ∈ b, c ≠ '/') :
    splitDir (d ++ b) = (d, b) := by
  have hball : ∀ c ∈ b.reverse, (c != '/') = true := by
    intro c hc; simpa using hb c (List.mem_reverse.mp hc)
  rcases hd with rfl | ⟨e, rfl⟩
  · have h1 : b.reverse.dropWhile (· != '/') = [] :=
      List.dropWhile_eq_nil_iff.mpr hball
    have h2 : b.reverse.takeWhile (· != '/') = b.reverse :=
      List.takeWhile_eq_self_iff.mpr hball
    simp [splitDir, h1, h2]
  · have hrev : ((e ++ ['/']) ++ b).reverse = b.reverse ++ '/' :: e.reverse := by
      simp
    have h1 : (b.reverse ++ '/' :: e.reverse).dropWhile (· != '/')
        = '/' :: e.reverse := by
      rw [dropWhileAll _ _ _ hball]; simp [List.dropWhile_cons]
    have h2 : (b.reverse ++ '/' :: e.reverse).takeWhile (· != '/')
        = b.reverse := by
      rw [takeWhileAll _ _ _ hball]; simp [List.takeWhile_cons]
    simp [splitDir, hrev, h1, h2]

/-! ### Structure of `splitExtBase` -/

theorem splitExtBase_join (b : Path) :
    (splitExtBase b).1 ++ (splitExtBase b).2 = b := by
  unfold splitExtBase
  split
  · simp
  · rename_i hd srev heq
    split
    · simp
    · have hhd : (hd != '.') = false :=
        dropWhileHead (· != '.') b.reverse hd srev heq
      have hhd2 : hd = '.' := by simpa using hhd
      have hjoin : b.reverse.takeWhile (· != '.') ++ (hd :: srev) = b.reverse := by
        rw [← heq]; exact List.takeWhile_append_dropWhile _ _
      have h2 := congrArg List.reverse hjoin
      simp only [List.reverse_append, List.reverse_cons, List.reverse_reverse] at h2
      rw [hhd2] at h2
      simpa [List.append_assoc] using h2

theorem splitExtBase_of_no_dot (b : Path) (h : ∀ c ∈ b, c ≠ '.') :
    splitExtBase b = (b, []) := by
  have h1 : b.reverse.dropWhile (· != '.') = [] := by
    refine List.dropWhile_eq_nil_iff.mpr ?_
    intro c hc; simpa using h c (List.mem_reverse.mp hc)
  unfold splitExtBase
  rw [h1]

theorem splitExtBase_append (s t : Path) (hs : ∃ c ∈ s, c ≠ '.')
    (ht : ∀ c ∈ t, c ≠ '.') :
    splitExtBase (s ++ '.' :: t) = (s, '.' :: t) := by
  have htall : ∀ c ∈ t.reverse, (c != '.') = true := by
    intro c hc; simpa using ht c (List.mem_reverse.mp hc)
  have hrev : (s ++ '.' :: t).reverse = t.reverse ++ '.' :: s.reverse := by
    simp
  have h1 : (s ++ '.' :: t).reverse.dropWhile (· != '.') = '.' :: s.reverse := by
    rw [hrev, dropWhileAll _ _ _ htall]; simp [List.dropWhile_cons]
  have h2 : (s ++ '.' :: t).reverse.takeWhile (· != '.') = t.reverse := by
    rw [hrev, takeWhileAll _ _ _ htall]; simp [List.takeWhile_cons]
  have hall : s.reverse.all (· == '.') = false := by
    rcases hs with ⟨c, hc, hne⟩
    refine (Bool.eq_false_iff).mpr ?_
    intro hcontra
    have := List.all_eq_true.mp hcontra c (List.mem_reverse.mpr hc)
    exact hne (by simpa using this)
  unfold splitExtBase
  rw [h1, h2]
  simp [hall]

/-! ### Structure of `splitext` and `pubKeyPath` -/

theorem splitext_join (p : Path) :
    (splitext p).1 ++ (splitext p).2 = p := by
  unfold splitext
  rw [List.append_assoc, splitExtBase_join, splitDir_join]

theorem mem_splitExtBase_fst (b : Path) (c : Char)
    (hc : c ∈ (splitExtBase b).1) : c ∈ b := by
  rw [← splitExtBase_join b]
  exact List.mem_append_left _ hc

theorem splitDir_pubKeyPath (p : Path) :
    splitDir (pubKeyPath p)
      = ((splitDir p).1, (splitExtBase (splitDir p).2).1 ++ '.' :: ['p', 'u', 'b']) := by
  have h1 : pubKeyPath p
      = (splitDir p).1 ++ ((splitExtBase (splitDir p).2).1 ++ '.' :: ['p', 'u', 'b']) := by
    unfold pubKeyPath splitext
    rw [List.append_assoc]
  rw [h1]
  refine splitDir_append _ _ (splitDir_fst_cases p) ?_
  intro c hc
  rcases List.mem_append.mp hc with h | h
  · exact splitDir_snd_no_slash p c (mem_splitExtBase_fst _ _ h)
  · simp only [List.mem_cons, List.mem_singleton, List.not_mem_nil] at h
    rcases h with rfl | rfl | rfl | rfl | h
    · decide
    · decide
    · decide
    · decide
    · cases h

theorem dirName_pubKeyPath (p : Path) : dirName (pubKeyPath p) = dirName p := by
  unfold dirName
  rw [splitDir_pubKeyPath]

/-- A well-formed file-name extension: a dot followed by characters that
are neither dots nor path separators. -/
def validExt (e : List Char) : Bool :=
  match e with
  | '.' :: t => t.all (fun c => c != '.' && c != '/')
  | _ => false

/-- A path whose final component holds at least one non-dot character,
so that appending an extension to it really creates an extension in the
sense of `splitext`. -/
def goodStem (s : Path) : Bool := (splitDir s).2.any (· != '.')

theorem validExt_spec (e : List Char) (h : validExt e = true) :
    ∃ t, e = '.' :: t ∧ ∀ c ∈ t, c ≠ '.' ∧ c ≠ '/' := by
  unfold validExt at h
  split at h
  · rename_i t
    refine ⟨t, rfl, ?_⟩
    intro c hc
    have := List.all_eq_true.mp h c hc
    constructor <;> simp_all
  · cases h

theorem goodStem_spec (s : Path) (h : goodStem s = true) :
    ∃ c ∈ (splitDir s).2, c ≠ '.' := by
  rcases List.any_eq_true.mp h with ⟨c, hc, hne⟩
  exact ⟨c, hc, by simpa using hne⟩

theorem splitext_append_valid (s t : Path)
    (hs : ∃ c ∈ (splitDir s).2, c ≠ '.')
    (ht : ∀ c ∈ t, c ≠ '.' ∧ c ≠ '/') :
    splitext (s ++ '.' :: t) = (s, '.' :: t) := by
  have hassoc : s ++ '.' :: t = (splitDir s).1 ++ ((splitDir s).2 ++ '.' :: t) := by
    rw [← List.append_assoc, splitDir_join]
  have hsd : splitDir (s ++ '.' :: t) = ((splitDir s).1, (splitDir s).2 ++ '.' :: t) := by
    rw [hassoc]
    refine splitDir_append _ _ (splitDir_fst_cases s) ?_
    intro c hc
    rcases List.mem_append.mp hc with h | h
    · exact splitDir_snd_no_slash s c h
    · rcases List.mem_cons.mp h with rfl | h
      · decide
      · exact (ht c h).2
  have hse : splitExtBase ((splitDir s).2 ++ '.' :: t) = ((splitDir s).2, '.' :: t) :=
    splitExtBase_append _ _ hs (fun c hc => (ht c hc).1)
  unfold splitext
  rw [hsd]
  simp only [hse]
  rw [splitDir_join]

/-! ### Substring facts about `hasRsa` and `pyStrip` -/

theorem rsaAtHead_append (s r : List Char) (h : rsaAtHead s = true) :
    rsaAtHead (s ++ r) = true := by
  unfold rsaAtHead at h
  split at h
  · rename_i c1 c2 c3 u
    simpa [rsaAtHead] using h
  · cases h

theorem hasRsa_cons (c : Char) (rest : List Char) :
    hasRsa (c :: rest) = (rsaAtHead (c :: rest) || hasRsa rest) := rfl

theorem hasRsa_append_right (l m : List Char) (h : hasRsa m = true) :
    hasRsa (l ++ m) = true := by
  induction l with
  | nil => simpa using h
  | cons c t ih => rw [List.cons_append, hasRsa_cons, ih, Bool.or_true]

theorem hasRsa_append_left (m r : List Char) (h : hasRsa m = true) :
    hasRsa (m ++ r) = true := by
  induction m with
  | nil => cases h
  | cons c t ih =>
    rw [hasRsa_cons] at h
    rcases Bool.or_eq_true_iff.mp h with hh | hh
    · have h2 := rsaAtHead_append (c :: t) r hh
      rw [List.cons_append] at h2
      rw [List.cons_append, hasRsa_cons, h2, Bool.true_or]
    · rw [List.cons_append, hasRsa_cons, ih hh, Bool.or_true]

theorem hasRsa_middle (l m r : List Char) (h : hasRsa m = true) :
    hasRsa (l ++ m ++ r) = true := by
  rw [List.append_assoc]
  exact hasRsa_append_right _ _ (hasRsa_append_left _ _ h)

theorem pyStrip_middle (s : List Char) :
    ∃ l r, s = l ++ pyStrip s ++ r := by
  refine ⟨s.takeWhile isPySpace,
    (((s.dropWhile isPySpace).reverse.takeWhile isPySpace)).reverse, ?_⟩
  unfold pyStrip
  have h1 : s = s.takeWhile isPySpace ++ s.dropWhile isPySpace :=
    (List.takeWhile_append_dropWhile _ _).symm
  have h2 : (s.dropWhile isPySpace).reverse
      = (s.dropWhile isPySpace).reverse.takeWhile isPySpace
        ++ (s.dropWhile isPySpace).reverse.dropWhile isPySpace :=
    (List.takeWhile_append_dropWhile _ _).symm
  have h3 := congrArg List.reverse h2
  simp only [List.reverse_append, List.reverse_reverse] at h3
  calc s = s.takeWhile isPySpace ++ s.dropWhile isPySpace := h1
    _ = s.takeWhile isPySpace
        ++ (((s.dropWhile isPySpace).reverse.dropWhile isPySpace).reverse
            ++ ((s.dropWhile isPySpace).reverse.takeWhile isPySpace).reverse) := by
        rw [← h3]
    _ = s.takeWhile isPySpace
        ++ ((s.dropWhile isPySpace).reverse.dropWhile isPySpace).reverse
        ++ ((s.dropWhile isPySpace).reverse.takeWhile isPySpace).reverse := by
        rw [List.append_assoc]

theorem hasRsa_of_pyStrip (s : List Char) (h : hasRsa (pyStrip s) = true) :
    hasRsa s = true := by
  rcases pyStrip_middle s with ⟨l, r, hs⟩
  rw [hs]
  exact hasRsa_middle _ _ _ h

/-! ### Workflow helpers -/

/-- The key spec the run resolves a token to: RSA with the parsed suffix
when the normalized token contains `rsa`, else the named curve. -/
def resolveSpec (kt : List Char) : Option KeySpec :=
  if hasRsa (normalizeToken kt) then
    (pyInt (stripRsa (normalizeToken kt))).map KeySpec.rsa
  else some (.ecc (normalizeToken kt))

/-- The serialized public-key artifact of a run — a function of the
collaborator and the token only, with no password input. -/
def pubArtifact (collab : Collab) (kt : List Char) : Nat :=
  if hasRsa (normalizeToken kt) then
    collab.serRsaPub (collab.rsaPubOf (collab.genRsaPriv
      ((pyInt (stripRsa (normalizeToken kt))).getD 0)))
  else collab.serEccPub (collab.eccPubOf (collab.genEccPriv (normalizeToken kt)))

theorem mainRun_ok_trace (collab : Collab) (fs : FS) (kt : List Char)
    (p : Path) (pw : Option (List Char)) (force : Bool)
    (h : (mainRun collab fs kt p pw force).1 = .ok 0) :
    ∃ spec, resolveSpec kt = some spec ∧
      (mainRun collab fs kt p pw force).2.2 =
        [.checkDir p, .checkFile p, .checkFile (pubKeyPath p),
         .generate spec, .writePriv p (effectivePassword pw),
         .writePub (pubKeyPath p)] := by
  rcases hdir : checkDestinationDir fs p force with e | fs1
  · simp [mainRun, hdir] at h
  · rcases hf1 : checkFileExists fs1 p force with e | u
    · simp [mainRun, hdir, hf1] at h
    · rcases hf2 : checkFileExists fs1 (pubKeyPath p) force with e | u2
      · simp [mainRun, hdir, hf1, hf2] at h
      · cases hr : hasRsa (normalizeToken kt) with
        | false =>
          refine ⟨.ecc (normalizeToken kt), by simp [resolveSpec, hr], ?_⟩
          simp [mainRun, hdir, hf1, hf2, hr]
        | true =>
          rcases hint : pyInt (stripRsa (normalizeToken kt)) with _ | bits
          · simp [mainRun, hdir, hf1, hf2, hr, hint] at h
          · refine ⟨.rsa bits, by simp [resolveSpec, hr, hint], ?_⟩
            simp [mainRun, hdir, hf1, hf2, hr, hint]

theorem content_write_self (fs : FS) (p : Path) (c : Nat) :
    FS.content (fs.write p c) p = some c := by
  simp [FS.content, FS.write, List.find?]

theorem mainRun_ok_pubContent (collab : Collab) (fs : FS) (kt : List Char)
    (p : Path) (pw : Option (List Char)) (force : Bool)
    (h : (mainRun collab fs kt p pw force).1 = .ok 0) :
    FS.content (mainRun collab fs kt p pw force).2.1 (pubKeyPath p)
      = some (pubArtifact collab kt) := by
  rcases hdir : checkDestinationDir fs p force with e | fs1
  · simp [mainRun, hdir] at h
  · rcases hf1 : checkFileExists fs1 p force with e | u
    · simp [mainRun, hdir, hf1] at h
    · rcases hf2 : checkFileExists fs1 (pubKeyPath p) force with e | u2
      · simp [mainRun, hdir, hf1, hf2] at h
      · cases hr : hasRsa (normalizeToken kt) with
        | false =>
          simp [mainRun, hdir, hf1, hf2, hr, pubArtifact, content_write_self]
        | true =>
          rcases hint : pyInt (stripRsa (normalizeToken kt)) with _ | bits
          · simp [mainRun, hdir, hf1, hf2, hr, hint] at h
          · simp [mainRun, hdir, hf1, hf2, hr, hint, pubArtifact,
              content_write_self]

theorem wf_dirName (fs : FS) (p : Path) (hwf : FS.wf fs = true)
    (hp : fs.isFile p = true) :
    dirName p = [] ∨ fs.dirs.contains (dirName p) = true := by
  rcases List.any_eq_true.mp hp with ⟨q, hq, hbeq⟩
  have hqp : q.1 = p := by simpa using hbeq
  have hq2 := List.all_eq_true.mp hwf q hq
  rcases Bool.or_eq_true_iff.mp hq2 with h | h
  · left; rw [← hqp]; simpa using h
  · right; rw [← hqp]; exact h

theorem checkDestinationDir_ok (fs : FS) (p : Path) (hwf : FS.wf fs = true)
    (hex : fs.isFile p = true ∨ fs.isFile (pubKeyPath p) = true) :
    checkDestinationDir fs p false = .ok fs := by
  have hdir : dirName p = [] ∨ fs.dirs.contains (dirName p) = true := by
    rcases hex with hex | hex
    · exact wf_dirName fs p hwf hex
    · have h2 := wf_dirName fs (pubKeyPath p) hwf hex
      rwa [dirName_pubKeyPath] at h2
  unfold checkDestinationDir
  rcases hdir with hd | hd
  · simp [hd]
  · have hd2 : dirName p ∈ fs.dirs := by simpa using hd
    by_cases hempty : (dirName p).isEmpty <;> simp [hempty, hd2]

/-! ### Claim theorems -/

/-- C2 counterexample: for the private-key path `key.pub` the derived
public-key path equals the private-key path, so the two paths are not
distinct, contrary to the claim that they are distinct even when the
input path's own extension is `.pub`. -/
theorem c2_counterexample :
    pubKeyPath ("key.pub".toList) = "key.pub".toList := by decide

/-- C2 (amended): for every private-key path whose extension is not
exactly `.pub`, the derived public-key path is distinct from the
private-key path, lies in the same directory, and both paths share the
same stem (base name) as a common prefix; when the extension is exactly
`.pub` the derived path coincides with the private path. -/
theorem c2_pub_path_distinct (p : Path)
    (h : (splitext p).2 ≠ '.' :: ['p', 'u', 'b']) :
    pubKeyPath p ≠ p ∧ dirName (pubKeyPath p) = dirName p ∧
      (splitext p).1 ++ (splitext p).2 = p ∧
      pubKeyPath p = (splitext p).1 ++ '.' :: ['p', 'u', 'b'] := by
  refine ⟨?_, dirName_pubKeyPath p, splitext_join p, rfl⟩
  intro heq
  apply h
  have h2 : (splitext p).1 ++ '.' :: ['p', 'u', 'b']
      = (splitext p).1 ++ (splitext p).2 := by
    calc (splitext p).1 ++ '.' :: ['p', 'u', 'b'] = pubKeyPath p := rfl
      _ = p := heq
      _ = (splitext p).1 ++ (splitext p).2 := (splitext_join p).symm
  exact (List.append_cancel_left h2).symm

/-- Witness for `c2_pub_path_distinct` at the path `key.pem`. -/
theorem c2_pub_path_distinct_witness :
    (splitext ("key.pem".toList)).2 ≠ '.' :: ['p', 'u', 'b'] ∧
      (pubKeyPath ("key.pem".toList) ≠ "key.pem".toList ∧
        dirName (pubKeyPath ("key.pem".toList)) = dirName ("key.pem".toList) ∧
        (splitext ("key.pem".toList)).1 ++ (splitext ("key.pem".toList)).2
          = "key.pem".toList ∧
        pubKeyPath ("key.pem".toList)
          = (splitext ("key.pem".toList)).1 ++ '.' :: ['p', 'u', 'b']) :=
  ⟨by decide, c2_pub_path_distinct ("key.pem".toList) (by decide)⟩

/-- C3 counterexample: the public-path derivation is not injective over
paths with valid extensions — `a.pem` and `a.der` are different paths
with valid extensions mapping to the same public-key path. -/
theorem c3_counterexample :
    pubKeyPath ("a.pem".toList) = pubKeyPath ("a.der".toList) ∧
      "a.pem".toList ≠ "a.der".toList := by decide

/-- C3 (amended): the derivation is a deterministic function that
identifies paths differing only in their (valid) extension: for a stem
whose final component has a non-dot character, every valid extension
yields the same public path and the same computed base name, and the
derivation is injective exactly up to the stem (`splitext`-root). -/
theorem c3_derive_extension_invariance (s e1 e2 : List Char)
    (h1 : validExt e1 = true) (h2 : validExt e2 = true)
    (hs : goodStem s = true) :
    pubKeyPath (s ++ e1) = pubKeyPath (s ++ e2) ∧
      (splitext (s ++ e1)).1 = s ∧ (splitext (s ++ e2)).1 = s ∧
      ∀ p q : Path, pubKeyPath p = pubKeyPath q ↔ (splitext p).1 = (splitext q).1 := by
  have hgs := goodStem_spec s hs
  rcases validExt_spec e1 h1 with ⟨t1, rfl, ht1⟩
  rcases validExt_spec e2 h2 with ⟨t2, rfl, ht2⟩
  have hs1 := splitext_append_valid s t1 hgs ht1
  have hs2 := splitext_append_valid s t2 hgs ht2
  refine ⟨?_, by rw [hs1], by rw [hs2], ?_⟩
  · unfold pubKeyPath
    rw [hs1, hs2]
  · intro p q
    constructor
    · intro hpq
      exact List.append_cancel_right hpq
    · intro hpq
      unfold pubKeyPath
      rw [hpq]

/-- Witness for `c3_derive_extension_invariance` at stem `key` with
extensions `.pem` and `.der`. -/
theorem c3_derive_extension_invariance_witness :
    validExt (".pem".toList) = true ∧ validExt (".der".toList) = true ∧
      goodStem ("key".toList) = true ∧
      pubKeyPath ("key".toList ++ ".pem".toList)
        = pubKeyPath ("key".toList ++ ".der".toList) :=
  ⟨by decide, by decide, by decide,
    (c3_derive_extension_invariance ("key".toList) (".pem".toList)
      (".der".toList) (by decide) (by decide) (by decide)).1⟩

/-- C10: for every private-key path whose final component contains no
dot, the derived public-key path is the private path with `.pub`
appended, and the two paths are distinct. -/
theorem c10_no_extension_append (p : Path)
    (h : ∀ c ∈ (splitDir p).2, c ≠ '.') :
    pubKeyPath p = p ++ '.' :: ['p', 'u', 'b'] ∧ pubKeyPath p ≠ p := by
  have hse := splitExtBase_of_no_dot _ h
  have hfst : (splitext p).1 = p := by
    unfold splitext
    rw [hse]
    simpa using splitDir_join p
  constructor
  · unfold pubKeyPath
    rw [hfst]
  · unfold pubKeyPath
    rw [hfst]
    intro heq
    have hl := congrArg List.length heq
    simp [List.length_append] at hl

/-- Witness for `c10_no_extension_append` at the dotless path `key`. -/
theorem c10_no_extension_append_witness :
    (∀ c ∈ (splitDir ("key".toList)).2, c ≠ '.') ∧
      pubKeyPath ("key".toList) = "key".toList ++ '.' :: ['p', 'u', 'b'] ∧
      pubKeyPath ("key".toList) ≠ "key".toList :=
  ⟨by decide, c10_no_extension_append ("key".toList) (by decide)⟩

/-- C1: on a well-formed file system, with `force` false, if either the
private-key path or the derived public-key path already exists, the run
fails with `FileExists` naming one of the two paths, the file system is
left unchanged, and the trace holds no key-generation and no write
event — the existence checks precede every write. -/
theorem c1_collision_fails_before_any_write (collab : Collab) (fs : FS)
    (kt : List Char) (p : Path) (pw : Option (List Char))
    (hwf : FS.wf fs = true)
    (hex : fs.isFile p = true ∨ fs.isFile (pubKeyPath p) = true) :
    (∃ q, (q = p ∨ q = pubKeyPath p) ∧ fs.isFile q = true ∧
        (mainRun collab fs kt p pw false).1 = .error (.fileExists q)) ∧
      (mainRun collab fs kt p pw false).2.1 = fs ∧
      ∀ e ∈ (mainRun collab fs kt p pw false).2.2,
        e.isWrite = false ∧ e.isGen = false := by
  have hdir := checkDestinationDir_ok fs p hwf hex
  by_cases hp : fs.isFile p = true
  · have hcf : checkFileExists fs p false = .error (.fileExists p) := by
      simp [checkFileExists, hp]
    refine ⟨⟨p, Or.inl rfl, hp, ?_⟩, ?_, ?_⟩
    · simp [mainRun, hdir, hcf]
    · simp [mainRun, hdir, hcf]
    · intro e he
      simp [mainRun, hdir, hcf] at he
      rcases he with rfl | rfl <;> simp [Event.isWrite, Event.isGen]
  · have hp2 : fs.isFile p = false := by simpa using hp
    have hpub : fs.isFile (pubKeyPath p) = true := by
      rcases hex with h | h
      · rw [h] at hp2; cases hp2
      · exact h
    have hcf1 : checkFileExists fs p false = .ok () := by
      simp [checkFileExists, hp2]
    have hcf2 : checkFileExists fs (pubKeyPath p) false
        = .error (.fileExists (pubKeyPath p)) := by
      simp [checkFileExists, hpub]
    refine ⟨⟨pubKeyPath p, Or.inr rfl, hpub, ?_⟩, ?_, ?_⟩
    · simp [mainRun, hdir, hcf1, hcf2]
    · simp [mainRun, hdir, hcf1, hcf2]
    · intro e he
      simp [mainRun, hdir, hcf1, hcf2] at he
      rcases he with rfl | rfl | rfl <;> simp [Event.isWrite, Event.isGen]

/-- Witness for `c1_collision_fails_before_any_write`: a root file system
holding only `key.pub`, with private-key path `key.pem`. -/
theorem c1_collision_fails_witness :
    FS.wf ⟨[], [("key.pub".toList, 7)]⟩ = true ∧
      (FS.isFile ⟨[], [("key.pub".toList, 7)]⟩ ("key.pem".toList) = true ∨
        FS.isFile ⟨[], [("key.pub".toList, 7)]⟩
          (pubKeyPath ("key.pem".toList)) = true) ∧
      (∃ q, (q = "key.pem".toList ∨ q = pubKeyPath ("key.pem".toList)) ∧
          FS.isFile ⟨[], [("key.pub".toList, 7)]⟩ q = true ∧
          (mainRun trivialCollab ⟨[], [("key.pub".toList, 7)]⟩
            "rsa2048".toList ("key.pem".toList) none false).1
            = .error (.fileExists q)) ∧
        (mainRun trivialCollab ⟨[], [("key.pub".toList, 7)]⟩
          "rsa2048".toList ("key.pem".toList) none false).2.1
          = ⟨[], [("key.pub".toList, 7)]⟩ ∧
        ∀ e ∈ (mainRun trivialCollab ⟨[], [("key.pub".toList, 7)]⟩
          "rsa2048".toList ("key.pem".toList) none false).2.2,
          e.isWrite = false ∧ e.isGen = false :=
  ⟨by decide, by decide,
    c1_collision_fails_before_any_write trivialCollab
      ⟨[], [("key.pub".toList, 7)]⟩ "rsa2048".toList ("key.pem".toList)
      none (by decide) (by decide)⟩

/-- C8: on every successful invocation the trace is exactly the
destination-directory check, the two file-existence checks, the key
generation, the private-key write, then the public-key write — so the
validation steps precede generation, and the private write precedes the
public write. -/
theorem c8_step_order (collab : Collab) (fs : FS) (kt : List Char)
    (p : Path) (pw : Option (List Char)) (force : Bool)
    (h : (mainRun collab fs kt p pw force).1 = .ok 0) :
    ∃ spec, (mainRun collab fs kt p pw force).2.2 =
      [.checkDir p, .checkFile p, .checkFile (pubKeyPath p),
       .generate spec, .writePriv p (effectivePassword pw),
       .writePub (pubKeyPath p)] := by
  rcases mainRun_ok_trace collab fs kt p pw force h with ⟨spec, _, htr⟩
  exact ⟨spec, htr⟩

/-- Witness for `c8_step_order`: a successful RSA run on an empty file
system. -/
theorem c8_step_order_witness :
    (mainRun trivialCollab ⟨[], []⟩ "rsa2048".toList ("key.pem".toList)
      none false).1 = .ok 0 ∧
      ∃ spec, (mainRun trivialCollab ⟨[], []⟩ "rsa2048".toList
        ("key.pem".toList) none false).2.2 =
        [.checkDir ("key.pem".toList), .checkFile ("key.pem".toList),
         .checkFile (pubKeyPath ("key.pem".toList)), .generate spec,
         .writePriv ("key.pem".toList) (effectivePassword none),
         .writePub (pubKeyPath ("key.pem".toList))] :=
  ⟨by decide,
    c8_step_order trivialCollab ⟨[], []⟩ "rsa2048".toList
      ("key.pem".toList) none false (by decide)⟩

/-- C4 counterexample: with the empty-string password supplied (present,
not absent), the private key is saved with no password at all — the
run's private-key write event carries `none`, so a present empty-string
password is not passed to the encryption routine, contrary to the
claim. -/
theorem c4_counterexample :
    effectivePassword (some []) = none ∧
      (mainRun trivialCollab ⟨[], []⟩ "rsa2048".toList ("key.pem".toList)
        (some []) false).2.2 =
      [.checkDir ("key.pem".toList), .checkFile ("key.pem".toList),
       .checkFile ("key.pub".toList), .generate (.rsa 2048),
       .writePriv ("key.pem".toList) none, .writePub ("key.pub".toList)] := by
  constructor
  · rfl
  · decide

/-- C4 (amended): the interface boundary coalesces the empty-string
password to absent (`password if password else None`): the private-key
save receives the password exactly when it is present and non-empty, and
an absent or empty password both lead to unencrypted serialization. -/
theorem c4_password_coalescing (collab : Collab) (fs : FS) (kt : List Char)
    (p : Path) (pw : Option (List Char)) (force : Bool)
    (h : (mainRun collab fs kt p pw force).1 = .ok 0) :
    Event.writePriv p (effectivePassword pw)
        ∈ (mainRun collab fs kt p pw force).2.2 ∧
      (effectivePassword pw = none ↔ pw = none ∨ pw = some []) ∧
      ∀ s, s ≠ [] → effectivePassword (some s) = some s := by
  rcases mainRun_ok_trace collab fs kt p pw force h with ⟨spec, _, htr⟩
  refine ⟨by rw [htr]; simp, ?_, ?_⟩
  · cases pw with
    | none => simp [effectivePassword]
    | some s => cases s with
      | nil => simp [effectivePassword]
      | cons c t => simp [effectivePassword]
  · intro s hs
    cases s with
    | nil => exact absurd rfl hs
    | cons c t => simp [effectivePassword]

/-- Witness for `c4_password_coalescing`: a successful run with the
non-empty password `x`. -/
theorem c4_password_coalescing_witness :
    (mainRun trivialCollab ⟨[], []⟩ "rsa2048".toList ("key.pem".toList)
      (some ['x']) false).1 = .ok 0 ∧
      Event.writePriv ("key.pem".toList) (effectivePassword (some ['x']))
        ∈ (mainRun trivialCollab ⟨[], []⟩ "rsa2048".toList
          ("key.pem".toList) (some ['x']) false).2.2 :=
  ⟨by decide,
    (c4_password_coalescing trivialCollab ⟨[], []⟩ "rsa2048".toList
      ("key.pem".toList) (some ['x']) false (by decide)).1⟩

/-- C5 counterexample: a successful run with the supplied (present)
empty-string password writes the private key unencrypted — the
private-key write event carries `none` rather than the supplied
password. -/
theorem c5_counterexample :
    (mainRun trivialCollab ⟨[], []⟩ "secp256r1".toList ("dev.pem".toList)
      (some []) false).2.2 =
      [.checkDir ("dev.pem".toList), .checkFile ("dev.pem".toList),
       .checkFile ("dev.pub".toList), .generate (.ecc "secp256r1".toList),
       .writePriv ("dev.pem".toList) none, .writePub ("dev.pub".toList)] := by
  decide

/-- C5 (amended): on every successful invocation the private-key file is
saved with the supplied password exactly when that password is non-empty
(absent or empty passwords give cleartext serialization), while the
public-key artifact is a function of the collaborator and token alone —
no password enters its serialization — regardless of the password. -/
theorem c5_encryption_policy (collab : Collab) (fs : FS) (kt : List Char)
    (p : Path) (pw : Option (List Char)) (force : Bool)
    (h : (mainRun collab fs kt p pw force).1 = .ok 0) :
    Event.writePriv p (effectivePassword pw)
        ∈ (mainRun collab fs kt p pw force).2.2 ∧
      Event.writePub (pubKeyPath p) ∈ (mainRun collab fs kt p pw force).2.2 ∧
      (∀ s, s ≠ [] → effectivePassword (some s) = some s) ∧
      effectivePassword none = none ∧ effectivePassword (some []) = none ∧
      FS.content (mainRun collab fs kt p pw force).2.1 (pubKeyPath p)
        = some (pubArtifact collab kt) := by
  rcases mainRun_ok_trace collab fs kt p pw force h with ⟨spec, _, htr⟩
  refine ⟨by rw [htr]; simp, by rw [htr]; simp, ?_, rfl, rfl,
    mainRun_ok_pubContent collab fs kt p pw force h⟩
  intro s hs
  cases s with
  | nil => exact absurd rfl hs
  | cons c t => simp [effectivePassword]

/-- Witness for `c5_encryption_policy`: a successful ECC run with the
password `s3` over pre-existing files and `force` true. -/
theorem c5_encryption_policy_witness :
    (mainRun trivialCollab ⟨[], [("dev.pem".toList, 1)]⟩
      "secp256r1".toList ("dev.pem".toList) (some ['s', '3']) true).1
      = .ok 0 ∧
      FS.content (mainRun trivialCollab ⟨[], [("dev.pem".toList, 1)]⟩
        "secp256r1".toList ("dev.pem".toList) (some ['s', '3']) true).2.1
        (pubKeyPath ("dev.pem".toList))
        = some (pubArtifact trivialCollab "secp256r1".toList) :=
  ⟨by decide,
    (c5_encryption_policy trivialCollab ⟨[], [("dev.pem".toList, 1)]⟩
      "secp256r1".toList ("dev.pem".toList) (some ['s', '3']) true
      (by decide)).2.2.2.2.2⟩

/-- C7: for every boundary-accepted token whose normalized form does not
contain `rsa`, a successful run generates an elliptic-curve key whose
curve name is exactly the normalized token, unchanged. -/
theorem c7_curve_passthrough (curves : List (List Char)) (collab : Collab)
    (fs : FS) (kt : List Char) (p : Path) (pw : Option (List Char))
    (force : Bool) (_hacc : tokenAccepted curves kt = true)
    (hr : hasRsa (normalizeToken kt) = false)
    (h : (mainRun collab fs kt p pw force).1 = .ok 0) :
    Event.generate (.ecc (normalizeToken kt))
      ∈ (mainRun collab fs kt p pw force).2.2 := by
  rcases mainRun_ok_trace collab fs kt p pw force h with ⟨spec, hspec, htr⟩
  have hspec2 : spec = .ecc (normalizeToken kt) := by
    simp [resolveSpec, hr] at hspec
    exact hspec.symm
  rw [htr, hspec2]
  simp

/-- Witness for `c7_curve_passthrough`: the accepted token `secp256r1`
on an empty file system. -/
theorem c7_curve_passthrough_witness :
    tokenAccepted specCurveNames ("secp256r1".toList) = true ∧
      hasRsa (normalizeToken ("secp256r1".toList)) = false ∧
      (mainRun trivialCollab ⟨[], []⟩ "secp256r1".toList ("dev.pem".toList)
        none false).1 = .ok 0 ∧
      Event.generate (.ecc (normalizeToken ("secp256r1".toList)))
        ∈ (mainRun trivialCollab ⟨[], []⟩ "secp256r1".toList
          ("dev.pem".toList) none false).2.2 :=
  ⟨by decide, by decide, by decide,
    c7_curve_passthrough specCurveNames trivialCollab ⟨[], []⟩
      "secp256r1".toList ("dev.pem".toList) none false (by decide)
      (by decide) (by decide)⟩

/-- C6: over a curve registry none of whose (case-folded) names contains
`rsa`, every boundary-accepted token whose normalized form contains
`rsa` resolves to an RSA spec whose modulus is the token's numeric
suffix, one of 2048, 3072 or 4096, and a successful run generates
exactly that RSA key; moreover every token of the shape `rsa<digits>`
with any other numeric value is rejected by the boundary choice
validation rather than silently defaulted. -/
theorem c6_rsa_resolution (curves : List (List Char)) (t : List Char)
    (hc : ∀ c ∈ curves, hasRsa (pyLower c) = false)
    (hacc : tokenAccepted curves t = true)
    (hrsa : hasRsa (normalizeToken t) = true) :
    (∃ n ds, normalizeToken t = "rsa".toList ++ ds ∧ pyInt ds = some n ∧
      (n = 2048 ∨ n = 3072 ∨ n = 4096) ∧ resolveSpec t = some (.rsa n) ∧
      ∀ collab fs p pw force, (mainRun collab fs t p pw force).1 = .ok 0 →
        Event.generate (.rsa n) ∈ (mainRun collab fs t p pw force).2.2) ∧
    ∀ u ds m, pyLower u = "rsa".toList ++ ds → pyInt ds = some m →
      ¬(m = 2048 ∨ m = 3072 ∨ m = 4096) → tokenAccepted curves u = false := by
  have hrej : ∀ u ds m, pyLower u = "rsa".toList ++ ds → pyInt ds = some m →
      ¬(m = 2048 ∨ m = 3072 ∨ m = 4096) → tokenAccepted curves u = false := by
    intro u ds m hu hds hm
    cases hta : tokenAccepted curves u with
    | false => rfl
    | true =>
      exfalso
      rcases List.any_eq_true.mp hta with ⟨k2, hk2, hbeq2⟩
      have heq2 : pyLower u = pyLower k2 := by simpa using hbeq2
      simp only [getListOfSupportedKeys, List.mem_append, List.mem_cons,
        List.not_mem_nil, or_false] at hk2
      rcases hk2 with (rfl | rfl | rfl) | hk2
      · have hcat : "rsa".toList ++ ds = "rsa".toList ++ "2048".toList := by
          rw [← hu, heq2]; decide
        have hds2 : ds = "2048".toList := List.append_cancel_left hcat
        rw [hds2] at hds
        have h2048 : pyInt ("2048".toList) = some 2048 := by decide
        rw [h2048] at hds
        exact hm (Or.inl (Option.some.inj hds).symm)
      · have hcat : "rsa".toList ++ ds = "rsa".toList ++ "3072".toList := by
          rw [← hu, heq2]; decide
        have hds2 : ds = "3072".toList := List.append_cancel_left hcat
        rw [hds2] at hds
        have h3072 : pyInt ("3072".toList) = some 3072 := by decide
        rw [h3072] at hds
        exact hm (Or.inr (Or.inl (Option.some.inj hds).symm))
      · have hcat : "rsa".toList ++ ds = "rsa".toList ++ "4096".toList := by
          rw [← hu, heq2]; decide
        have hds2 : ds = "4096".toList := List.append_cancel_left hcat
        rw [hds2] at hds
        have h4096 : pyInt ("4096".toList) = some 4096 := by decide
        rw [h4096] at hds
        exact hm (Or.inr (Or.inr (Option.some.inj hds).symm))
      · have h1 : hasRsa (pyLower u) = true := by
          rw [hu]
          have hlit : ("rsa".toList ++ ds) = 'r' :: 's' :: 'a' :: ds := rfl
          rw [hlit, hasRsa_cons]
          simp [rsaAtHead]
        rw [heq2, hc k2 hk2] at h1
        cases h1
  refine ⟨?_, hrej⟩
  rcases List.any_eq_true.mp hacc with ⟨k, hk, hbeq⟩
  have heqk : pyLower t = pyLower k := by simpa using hbeq
  have hnt : normalizeToken t = pyStrip (pyLower k) := by
    unfold normalizeToken
    rw [heqk]
  simp only [getListOfSupportedKeys, List.mem_append, List.mem_cons,
    List.not_mem_nil, or_false] at hk
  rcases hk with (rfl | rfl | rfl) | hk
  · have hnt2 : normalizeToken t = "rsa2048".toList := by rw [hnt]; decide
    have hres : resolveSpec t = some (.rsa 2048) := by
      unfold resolveSpec
      rw [hnt2]
      decide
    refine ⟨2048, "2048".toList, by rw [hnt2]; decide, by decide,
      Or.inl rfl, hres, ?_⟩
    intro collab fs p pw force hok
    rcases mainRun_ok_trace collab fs t p pw force hok with ⟨spec, hspec, htr⟩
    rw [hres] at hspec
    rw [htr, ← Option.some.inj hspec]
    simp
  · have hnt2 : normalizeToken t = "rsa3072".toList := by rw [hnt]; decide
    have hres : resolveSpec t = some (.rsa 3072) := by
      unfold resolveSpec
      rw [hnt2]
      decide
    refine ⟨3072, "3072".toList, by rw [hnt2]; decide, by decide,
      Or.inr (Or.inl rfl), hres, ?_⟩
    intro collab fs p pw force hok
    rcases mainRun_ok_trace collab fs t p pw force hok with ⟨spec, hspec, htr⟩
    rw [hres] at hspec
    rw [htr, ← Option.some.inj hspec]
    simp
  · have hnt2 : normalizeToken t = "rsa4096".toList := by rw [hnt]; decide
    have hres : resolveSpec t = some (.rsa 4096) := by
      unfold resolveSpec
      rw [hnt2]
      decide
    refine ⟨4096, "4096".toList, by rw [hnt2]; decide, by decide,
      Or.inr (Or.inr rfl), hres, ?_⟩
    intro collab fs p pw force hok
    rcases mainRun_ok_trace collab fs t p pw force hok with ⟨spec, hspec, htr⟩
    rw [hres] at hspec
    rw [htr, ← Option.some.inj hspec]
    simp
  · exfalso
    have h1 : hasRsa (pyStrip (pyLower k)) = true := by rw [← hnt]; exact hrsa
    have h2 : hasRsa (pyLower k) = true := hasRsa_of_pyStrip _ h1
    rw [hc k hk] at h2
    cases h2

/-- Witness for `c6_rsa_resolution`: the spec's curve registry and the
accepted token `RSA2048` (case-insensitively matched). -/
theorem c6_rsa_resolution_witness :
    (∀ c ∈ specCurveNames, hasRsa (pyLower c) = false) ∧
      tokenAccepted specCurveNames ("RSA2048".toList) = true ∧
      hasRsa (normalizeToken ("RSA2048".toList)) = true ∧
      ∃ n ds, normalizeToken ("RSA2048".toList) = "rsa".toList ++ ds ∧
        pyInt ds = some n ∧ (n = 2048 ∨ n = 3072 ∨ n = 4096) ∧
        resolveSpec ("RSA2048".toList) = some (.rsa n) ∧
        ∀ collab fs p pw force,
          (mainRun collab fs ("RSA2048".toList) p pw force).1 = .ok 0 →
          Event.generate (.rsa n)
            ∈ (mainRun collab fs ("RSA2048".toList) p pw force).2.2 :=
  ⟨by decide, by decide, by decide,
    (c6_rsa_resolution specCurveNames ("RSA2048".toList) (by decide)
      (by decide) (by decide)).1⟩

/-- C9: the advertised token set is exactly the three RSA size tokens
together with every curve name exposed by the collaborator's registry —
membership in `get_list_of_supported_keys` is equivalent to being one of
`rsa2048`, `rsa3072`, `rsa4096` or a registry curve name. -/
theorem c9_supported_token_set (curves : List (List Char)) (t : List Char) :
    t ∈ getListOfSupportedKeys curves ↔
      t = "rsa2048".toList ∨ t = "rsa3072".toList ∨ t = "rsa4096".toList ∨
        t ∈ curves := by
  simp [getListOfSupportedKeys]

end NxpKeyGen
